import Mathlib

/-!
Verification development for the OR-SIM backend core: the state manager
(`backend/data/state_manager.py`), the LLM output parser
(`backend/llm/output_parser.py`), the VAD audio segmenter
(`backend/asr/audio.py`) and the pipeline queue
(`backend/pipeline/pipeline.py`), together with the machine catalog data
(`backend/data/surgeries.py`).

Python semantics are embedded shallowly: strings are Lean `String`s
(all catalog data and relevant inputs are ASCII), Python dicts become
insertion-ordered association lists, fallible code returns `Option` or
`Except`, and the float RMS of an audio frame is modelled as a rational
field carried by the frame (only threshold comparisons on it matter).
-/

set_option maxHeartbeats 1000000
set_option maxRecDepth 100000

/-- Python `str.lower()` restricted to ASCII, which covers every catalog
name, alias and input considered here. -/
def pyLower (s : String) : String := ⟨s.data.map Char.toLower⟩

/-- Characters stripped by Python `str.strip()` (the ASCII whitespace set). -/
def isPySpace (c : Char) : Bool :=
  c = ' ' || c = '\t' || c = '\n' || c = '\r' || c = '\x0b' || c = '\x0c'

/-- Python `str.strip()`: drop leading and trailing whitespace. -/
def pyStrip (s : String) : String :=
  ⟨((s.data.dropWhile isPySpace).reverse.dropWhile isPySpace).reverse⟩

/-- Containment of one character list in another, by scanning suffixes. -/
def listInfix (needle hay : List Char) : Bool :=
  hay.tails.any (fun t => needle.isPrefixOf t)

/-- Python `needle in hay` substring containment. -/
def pyContains (needle hay : String) : Bool :=
  listInfix needle.data hay.data

/-- One machine of a surgery catalog (`surgeries.py` machine dict entry);
the `description` field is omitted because no embedded code path reads it. -/
structure Machine where
  name : String
  aliases : List String
deriving DecidableEq, Repr

/-- Machine catalog of one surgery: the values of `MACHINES[surgery]` in
index order. -/
abbrev Catalog := List Machine

/-- surgeries.get_machine_names: ordered canonical machine names. -/
def getMachineNames (catalog : Catalog) : List String :=
  catalog.map Machine.name

/-- The `_HEART` catalog of `surgeries.py` (HEART_TRANSPLANT). -/
def heartCatalog : Catalog :=
  [ ⟨"Patient Monitor", ["monitor", "vitals monitor", "cardiac monitor", "hemodynamic monitor"]⟩
  , ⟨"Ventilator", ["vent", "breathing machine", "mechanical ventilation"]⟩
  , ⟨"Anesthesia Machine", ["anesthesia", "gas machine", "anaesthesia machine"]⟩
  , ⟨"Cardiopulmonary Bypass Machine", ["bypass machine", "heart-lung machine", "CPB", "bypass pump", "pump"]⟩
  , ⟨"Perfusion Pump", ["perfusion", "cardioplegia pump", "del nido pump"]⟩
  , ⟨"Defibrillator", ["defib", "shock machine", "cardioverter", "defibrillator unit"]⟩
  , ⟨"Electrocautery Unit", ["cautery", "bovie", "electrosurgical unit", "ESU", "diathermy", "electrosurgery unit", "bipolar electrosurgery unit"]⟩
  , ⟨"Suction Device", ["suction", "suction machine", "aspirator", "suction unit"]⟩
  , ⟨"Blood Warmer", ["blood warmer", "fluid warmer", "Ranger", "warming unit"]⟩
  , ⟨"Warming Blanket", ["warming blanket", "bair hugger", "forced air warmer", "patient warmer"]⟩
  , ⟨"Surgical Lights", ["lights", "OR lights", "overhead lights", "surgical lamp", "theatre lights"]⟩
  , ⟨"Instrument Table", ["instrument table", "back table", "mayo stand", "scrub table"]⟩
  , ⟨"Cell Saver", ["cell saver", "autotransfusion", "cell salvage"]⟩
  , ⟨"Transesophageal Echo Unit", ["TEE", "transesophageal echo", "echo machine", "TOE", "intraop echo"]⟩
  , ⟨"Intra-Aortic Balloon Pump", ["IABP", "balloon pump", "aortic balloon", "intra-aortic pump"]⟩
  ]

/-- Python dict assignment `d[k] = v` on an insertion-ordered association
list: overwrite in place when the key exists, else append. -/
def dictInsert (m : List (String × String)) (k v : String) : List (String × String) :=
  if m.any (fun p => p.1 == k) then
    m.map (fun p => if p.1 == k then (k, v) else p)
  else m ++ [(k, v)]

/-- Python dict lookup `d.get(k)` / `k in d`. -/
def dictGet (m : List (String × String)) (k : String) : Option String :=
  (m.find? (fun p => p.1 == k)).map Prod.snd

/-- output_parser._build_alias_map: lowercase alias and canonical name →
canonical name, in catalog order. -/
def buildAliasMap (catalog : Catalog) : List (String × String) :=
  catalog.foldl (fun am machine =>
    machine.aliases.foldl (fun am a => dictInsert am (pyLower a) machine.name)
      (dictInsert am (pyLower machine.name) machine.name)) []

/-- output_parser._fuzzy_match_machine: exact alias-map lookup, then
alias-key-as-substring-of-input, then canonical-name substring in either
direction. -/
def fuzzyMatchMachine (name : String) (canonicalNames : List String)
    (aliasMap : List (String × String)) : Option String :=
  let nameLower := pyStrip (pyLower name)
  match dictGet aliasMap nameLower with
  | some c => some c
  | none =>
    match aliasMap.find? (fun p => pyContains p.1 nameLower) with
    | some p => some p.2
    | none =>
      canonicalNames.find? (fun c =>
        pyContains nameLower (pyLower c) || pyContains (pyLower c) nameLower)

/-- StateManager._resolve_name, acting on the key list of the `_machines`
dict (the canonical names in catalog order): exact key match, then
case-insensitive match, then input-as-substring-of-canonical. -/
def resolveName (machines : List String) (name : String) : Option String :=
  if machines.contains name then some name
  else
    let nameLower := pyStrip (pyLower name)
    match machines.find? (fun c => pyLower c == nameLower) with
    | some c => some c
    | none => machines.find? (fun c => pyContains nameLower (pyLower c))

/-- Value of the StateManager `_machines` dict: canonical name plus on/off
state (the unused `description` field is omitted). -/
structure MachineEntry where
  name : String
  isOn : Bool
deriving DecidableEq, Repr

/-- models.StateUpdateRequest. -/
structure StateUpdateRequest where
  turnOn : List String := []
  turnOff : List String := []
  transcription : String := ""
  reasoning : String := ""
deriving DecidableEq, Repr

/-- Canonical-name key list of the machines dict. -/
def machineNames (ms : List MachineEntry) : List String :=
  ms.map MachineEntry.name

/-- Assignment `self._machines[c].is_on = v`. -/
def setOn (ms : List MachineEntry) (c : String) (v : Bool) : List MachineEntry :=
  ms.map (fun m => if m.name == c then { m with isOn := v } else m)

/-- StateManager initial state: one entry per catalog machine, all OFF. -/
def initMachines (catalog : Catalog) : List MachineEntry :=
  catalog.map (fun m => ⟨m.name, false⟩)

/-- Body of the `turn_on` loop of StateManager.apply_update: resolve the
name and set the matched machine ON; unresolved names are skipped.  (The
Python `if not ... is_on` guard before the assignment only drives logging
and the `changed` flag; the resulting state equals the unconditional
assignment modelled here.) -/
def turnOnStep (acc : List MachineEntry) (n : String) : List MachineEntry :=
  match resolveName (machineNames acc) n with
  | some c => setOn acc c true
  | none => acc

/-- Body of the `turn_off` loop of StateManager.apply_update. -/
def turnOffStep (acc : List MachineEntry) (n : String) : List MachineEntry :=
  match resolveName (machineNames acc) n with
  | some c => setOn acc c false
  | none => acc

/-- StateManager.apply_update on the machines dict: the whole `turn_on`
list is applied first, then the whole `turn_off` list. -/
def applyUpdate (ms : List MachineEntry) (req : StateUpdateRequest) : List MachineEntry :=
  req.turnOff.foldl turnOffStep (req.turnOn.foldl turnOnStep ms)

/-- StateManager.reset: force every machine OFF. -/
def resetMachines (ms : List MachineEntry) : List MachineEntry :=
  ms.map (fun m => { m with isOn := false })

/-- machine_states part of ORStateSnapshot as built by
StateManager._build_snapshot: "0" = off names, "1" = on names, in dict
order (timestamp and text fields of the snapshot are metadata and are
omitted). -/
structure Snapshot where
  offNames : List String
  onNames : List String
deriving DecidableEq, Repr

/-- StateManager._build_snapshot. -/
def buildSnapshot (ms : List MachineEntry) : Snapshot :=
  { offNames := (ms.filter (fun m => !m.isOn)).map MachineEntry.name
  , onNames := (ms.filter (fun m => m.isOn)).map MachineEntry.name }

/-- JSON value as produced by Python `json.loads`.  Numbers keep their source
lexeme: no embedded code path consumes a numeric value, only the fact that a
number is not a dict/list/str. -/
inductive JValue where
  | null
  | bool (b : Bool)
  | num (lexeme : String)
  | str (s : String)
  | arr (elems : List JValue)
  | obj (members : List (String × JValue))
deriving Repr

/-- Whitespace skipped between JSON tokens. -/
def jskipWs (cs : List Char) : List Char :=
  cs.dropWhile (fun c => c = ' ' || c = '\t' || c = '\n' || c = '\r')

/-- Value of one hex digit. -/
def hexVal (c : Char) : Option Nat :=
  if '0' ≤ c ∧ c ≤ '9' then some (c.toNat - '0'.toNat)
  else if 'a' ≤ c ∧ c ≤ 'f' then some (c.toNat - 'a'.toNat + 10)
  else if 'A' ≤ c ∧ c ≤ 'F' then some (c.toNat - 'A'.toNat + 10)
  else none

/-- Four hex digits as a code point. -/
def hex4 (a b c d : Char) : Option Nat := do
  let va ← hexVal a
  let vb ← hexVal b
  let vc ← hexVal c
  let vd ← hexVal d
  pure (((va * 16 + vb) * 16 + vc) * 16 + vd)

/-- Single-character JSON string escapes. -/
def escChar (c : Char) : Option Char :=
  if c = '"' then some '"'
  else if c = '\\' then some '\\'
  else if c = '/' then some '/'
  else if c = 'b' then some '\x08'
  else if c = 'f' then some '\x0c'
  else if c = 'n' then some '\n'
  else if c = 'r' then some '\r'
  else if c = 't' then some '\t'
  else none

/-- JSON string body after the opening quote: returns the decoded characters
and the input after the closing quote.  Unescaped control characters and bad
escapes are rejected, as in Python strict mode; `\uXXXX` surrogate pairs are
combined (a lone surrogate, which Lean `Char` cannot hold, decodes to the
`Char.ofNat` default — no embedded input contains one).  The fuel argument
bounds recursion; every step consumes at least one character, so callers
pass `length + 1`. -/
def jstring : Nat → List Char → Option (List Char × List Char)
  | 0, _ => none
  | _, [] => none
  | fuel + 1, c :: rest =>
    if c = '"' then some ([], rest)
    else if c = '\\' then
      match rest with
      | [] => none
      | e :: rest2 =>
        if e = 'u' then
          match rest2 with
          | a :: b :: c2 :: d :: rest3 =>
            match hex4 a b c2 d with
            | none => none
            | some code =>
              if 0xd800 ≤ code ∧ code < 0xdc00 then
                match rest3 with
                | x :: u :: a2 :: b2 :: c3 :: d2 :: rest4 =>
                  if x = '\\' ∧ u = 'u' then
                    match hex4 a2 b2 c3 d2 with
                    | some code2 =>
                      if 0xdc00 ≤ code2 ∧ code2 < 0xe000 then
                        (jstring fuel rest4).map (fun (s, r) =>
                          (Char.ofNat (0x10000 + (code - 0xd800) * 0x400 + (code2 - 0xdc00)) :: s, r))
                      else
                        (jstring fuel rest3).map (fun (s, r) => (Char.ofNat code :: s, r))
                    | none => (jstring fuel rest3).map (fun (s, r) => (Char.ofNat code :: s, r))
                  else (jstring fuel rest3).map (fun (s, r) => (Char.ofNat code :: s, r))
                | _ => (jstring fuel rest3).map (fun (s, r) => (Char.ofNat code :: s, r))
              else (jstring fuel rest3).map (fun (s, r) => (Char.ofNat code :: s, r))
          | _ => none
        else
          match escChar e with
          | some ch => (jstring fuel rest2).map (fun (s, r) => (ch :: s, r))
          | none => none
    else if c.toNat < 0x20 then none
    else (jstring fuel rest).map (fun (s, r) => (c :: s, r))

/-- Integer part of a JSON number: `0` or a nonzero digit followed by digits. -/
def lexInt : List Char → Option (List Char × List Char)
  | [] => none
  | c :: rest =>
    if c = '0' then some (['0'], rest)
    else if c.isDigit then
      some (c :: rest.takeWhile Char.isDigit, rest.dropWhile Char.isDigit)
    else none

/-- Optional fraction part `.digits`; contributes nothing when absent or
incomplete (the regex simply matches less). -/
def lexFrac (cs : List Char) : List Char × List Char :=
  match cs with
  | '.' :: rest =>
    let ds := rest.takeWhile Char.isDigit
    if ds.isEmpty then ([], cs) else ('.' :: ds, rest.dropWhile Char.isDigit)
  | _ => ([], cs)

/-- Optional exponent part `[eE][+-]?digits`. -/
def lexExp (cs : List Char) : List Char × List Char :=
  match cs with
  | e :: rest =>
    if e = 'e' ∨ e = 'E' then
      let (sign, rest2) := match rest with
        | c :: r => if c = '+' ∨ c = '-' then ([c], r) else (([] : List Char), rest)
        | [] => ([], rest)
      let ds := rest2.takeWhile Char.isDigit
      if ds.isEmpty then ([], cs)
      else (e :: (sign ++ ds), rest2.dropWhile Char.isDigit)
    else ([], cs)
  | [] => ([], cs)

/-- JSON number lexeme `-?(0|[1-9]digits)(.digits)?([eE][+-]?digits)?`. -/
def lexNumber (cs : List Char) : Option (String × List Char) :=
  let (sign, cs1) := match cs with
    | '-' :: r => ((['-'] : List Char), r)
    | _ => ([], cs)
  match lexInt cs1 with
  | none => none
  | some (ip, cs2) =>
    let (fp, cs3) := lexFrac cs2
    let (ep, cs4) := lexExp cs3
    some (⟨sign ++ ip ++ fp ++ ep⟩, cs4)

mutual

/-- One JSON value, skipping leading whitespace.  The fuel argument bounds
recursion depth; since every recursive call strictly advances the input,
`length + 1` fuel always suffices. -/
def parseJValue : Nat → List Char → Option (JValue × List Char)
  | 0, _ => none
  | fuel + 1, cs =>
    let cs := jskipWs cs
    match cs with
    | [] => none
    | c :: rest =>
      if c = '"' then (jstring (rest.length + 1) rest).map (fun (s, r) => (JValue.str ⟨s⟩, r))
      else if c = '{' then
        let cs1 := jskipWs rest
        match cs1 with
        | '}' :: r => some (.obj [], r)
        | _ => (parseJMembers fuel cs1).map (fun (ms, r) => (JValue.obj ms, r))
      else if c = '[' then
        let cs1 := jskipWs rest
        match cs1 with
        | ']' :: r => some (.arr [], r)
        | _ => (parseJItems fuel cs1).map (fun (xs, r) => (JValue.arr xs, r))
      else if ['t', 'r', 'u', 'e'].isPrefixOf cs then some (.bool true, cs.drop 4)
      else if ['f', 'a', 'l', 's', 'e'].isPrefixOf cs then some (.bool false, cs.drop 5)
      else if ['n', 'u', 'l', 'l'].isPrefixOf cs then some (.null, cs.drop 4)
      else if ['N', 'a', 'N'].isPrefixOf cs then some (.num "NaN", cs.drop 3)
      else if ['I', 'n', 'f', 'i', 'n', 'i', 't', 'y'].isPrefixOf cs then
        some (.num "Infinity", cs.drop 8)
      else if ['-', 'I', 'n', 'f', 'i', 'n', 'i', 't', 'y'].isPrefixOf cs then
        some (.num "-Infinity", cs.drop 9)
      else (lexNumber cs).map (fun (lex, r) => (JValue.num lex, r))

/-- Non-empty member list of a JSON object, positioned at the first key. -/
def parseJMembers : Nat → List Char → Option (List (String × JValue) × List Char)
  | 0, _ => none
  | fuel + 1, cs =>
    match cs with
    | '"' :: rest =>
      match jstring (rest.length + 1) rest with
      | none => none
      | some (k, r1) =>
        match jskipWs r1 with
        | ':' :: r3 =>
          match parseJValue fuel r3 with
          | none => none
          | some (v, r4) =>
            match jskipWs r4 with
            | ',' :: r6 =>
              (parseJMembers fuel (jskipWs r6)).map (fun (ms, r) => ((⟨k⟩, v) :: ms, r))
            | '}' :: r6 => some ([(⟨k⟩, v)], r6)
            | _ => none
        | _ => none
    | _ => none

/-- Non-empty item list of a JSON array, positioned at the first value. -/
def parseJItems : Nat → List Char → Option (List JValue × List Char)
  | 0, _ => none
  | fuel + 1, cs =>
    match parseJValue fuel cs with
    | none => none
    | some (v, r1) =>
      match jskipWs r1 with
      | ',' :: r2 => (parseJItems fuel (jskipWs r2)).map (fun (xs, r) => (v :: xs, r))
      | ']' :: r2 => some ([v], r2)
      | _ => none

end

/-- Python `json.loads`: parse one value and require only whitespace after
it, else the call raises (modelled as `none`). -/
def jsonLoads (s : String) : Option JValue :=
  match parseJValue (s.length + 1) s.data with
  | some (v, rest) => if (jskipWs rest).isEmpty then some v else none
  | none => none

/-- Lookup in a dict built by Python from parsed JSON object members:
with duplicate keys the last occurrence wins. -/
def pyObjGet (members : List (String × JValue)) (k : String) : Option JValue :=
  (members.reverse.find? (fun p => p.1 == k)).map Prod.snd

/-- Backtick character (code 96). -/
def backtick : Char := Char.ofNat 96

/-- Single-quote character (code 39). -/
def squote : String := ⟨[Char.ofNat 39]⟩

mutual

/-- Python `str()` applied to a parsed JSON value, as used for the
`reasoning` field.  Numeric formatting is approximated by the source
lexeme, and `repr` escaping inside containers is not modelled; no
embedded claim observes either detail. -/
def pyStr : JValue → String
  | .null => "None"
  | .bool true => "True"
  | .bool false => "False"
  | .num lex => lex
  | .str s => s
  | .arr xs => "[" ++ pyReprItems xs ++ "]"
  | .obj ms => "\x7b" ++ pyReprMembers ms ++ "\x7d"

/-- Python `repr()` of a parsed JSON value (container elements). -/
def pyRepr : JValue → String
  | .null => "None"
  | .bool true => "True"
  | .bool false => "False"
  | .num lex => lex
  | .str s => squote ++ s ++ squote
  | .arr xs => "[" ++ pyReprItems xs ++ "]"
  | .obj ms => "\x7b" ++ pyReprMembers ms ++ "\x7d"

/-- Comma-separated list elements. -/
def pyReprItems : List JValue → String
  | [] => ""
  | [v] => pyRepr v
  | v :: vs => pyRepr v ++ ", " ++ pyReprItems vs

/-- Comma-separated dict members. -/
def pyReprMembers : List (String × JValue) → String
  | [] => ""
  | [(k, v)] => squote ++ k ++ squote ++ ": " ++ pyRepr v
  | (k, v) :: ms => squote ++ k ++ squote ++ ": " ++ pyRepr v ++ ", " ++ pyReprMembers ms

end

/-- Scanner for `re.sub` of a code-fence opener (three backticks, an
optional `json` tag, then any run of regex whitespace) replaced by the
empty string, applied left to right exactly as `re.sub` does. -/
def stripFenceCore : Nat → List Char → List Char
  | 0, cs => cs
  | _, [] => []
  | fuel + 1, c :: cs =>
    if c = backtick ∧ cs.take 2 = [backtick, backtick] then
      let rest := cs.drop 2
      let rest2 := if ['j', 's', 'o', 'n'].isPrefixOf rest then rest.drop 4 else rest
      stripFenceCore fuel (rest2.dropWhile isPySpace)
    else
      c :: stripFenceCore fuel cs

/-- Python `text.replace` of a triple backtick by the empty string
(left-to-right, non-overlapping). -/
def removeTriple : Nat → List Char → List Char
  | 0, cs => cs
  | _, [] => []
  | fuel + 1, c :: cs =>
    if c = backtick ∧ cs.take 2 = [backtick, backtick] then removeTriple fuel (cs.drop 2)
    else c :: removeTriple fuel cs

/-- output_parser._strip_code_fence: remove fence openers, then any stray
triple backticks, then strip.  Both scanners advance by at least one
character per step and never lengthen the text, so `length + 1` fuel
always suffices. -/
def stripCodeFence (s : String) : String :=
  pyStrip ⟨removeTriple (s.data.length + 1) (stripFenceCore (s.data.length + 1) s.data)⟩

/-- Scanner for `re.sub` of a comma, optional regex whitespace and a
closing bracket or brace, replaced by just the bracket
(output_parser._fix_trailing_commas). -/
def fixCommasCore : Nat → List Char → List Char
  | 0, cs => cs
  | _, [] => []
  | fuel + 1, c :: cs =>
    if c = ',' then
      let rest := cs.dropWhile isPySpace
      if rest.take 1 = [']'] ∨ rest.take 1 = ['}'] then
        rest.take 1 ++ fixCommasCore fuel (rest.drop 1)
      else c :: fixCommasCore fuel cs
    else c :: fixCommasCore fuel cs

/-- output_parser._fix_trailing_commas (`length + 1` fuel suffices: every
step consumes at least one character). -/
def fixTrailingCommas (s : String) : String :=
  ⟨fixCommasCore (s.data.length + 1) s.data⟩

/-- Depth-counting walk of output_parser._extract_first_json_object:
returns start index and one-past-end index of the first balanced
brace-delimited block. -/
def extractGo : List Char → Nat → Int → Option Nat → Option (Nat × Nat)
  | [], _, _, _ => none
  | c :: cs, i, depth, start =>
    if c = '{' then
      extractGo cs (i + 1) (depth + 1) (if depth = 0 then some i else start)
    else if c = '}' then
      if depth - 1 = 0 then
        match start with
        | some st => some (st, i + 1)
        | none => extractGo cs (i + 1) (depth - 1) start
      else extractGo cs (i + 1) (depth - 1) start
    else extractGo cs (i + 1) depth start

/-- output_parser._extract_first_json_object. -/
def extractFirstJsonObject (s : String) : Option String :=
  (extractGo s.data 0 0 none).map (fun p => ⟨(s.data.drop p.1).take (p.2 - p.1)⟩)

/-- output_parser._try_parse: candidate list in cascade order; the first
candidate on which `json.loads` does not raise determines the result
(`_fix_single_quotes` exists in the source but is never called). -/
def tryParse (text : String) : Option JValue :=
  let candidates := [text, stripCodeFence text, fixTrailingCommas text,
    fixTrailingCommas (stripCodeFence text)]
  let candidates := candidates ++ (match extractFirstJsonObject text with
    | some ex => [ex, fixTrailingCommas ex]
    | none => [])
  candidates.findSome? jsonLoads

/-- schemas.LLMOutput: reasoning plus machine_states lists "0" (turn off)
and "1" (turn on).  The pydantic validator is the identity on every value
this embedding constructs (lists of canonical names, which are non-empty
stripped strings). -/
structure LLMOutput where
  reasoning : String := ""
  turnOff : List String := []
  turnOn : List String := []
deriving DecidableEq, Repr

/-- output_parser._normalise_machine_names: resolve each listed name,
drop unknowns, deduplicate keeping first occurrence.  A non-string element
makes the Python code call `.lower()` on it and raise `AttributeError`,
modelled as `Except.error`. -/
def normaliseMachineNames (lst : List JValue) (canonicalNames : List String)
    (aliasMap : List (String × String)) : Except String (List String) :=
  lst.foldlM (fun acc v =>
    match v with
    | .str name =>
      match fuzzyMatchMachine name canonicalNames aliasMap with
      | some m => pure (if acc.contains m then acc else acc ++ [m])
      | none => pure acc
    | _ => Except.error "AttributeError: lower") []

/-- Fallback LLMOutput returned when no parse attempt succeeds. -/
def parseFailedFallback : LLMOutput :=
  { reasoning := "Parse failed — no state change applied." }

/-- output_parser.parse_llm_output.  `Except.error` models an uncaught
Python exception reaching the caller: `parsed.get` on a non-dict raises
`AttributeError`, as does `.lower()` on a non-string list element.
The `parsed is None` check is true exactly when the first non-raising
candidate parsed as JSON `null`. -/
def parseLLMOutput (rawText : String) (catalog : Catalog) : Except String LLMOutput :=
  let canonicalNames := getMachineNames catalog
  let aliasMap := buildAliasMap catalog
  match tryParse rawText with
  | none => .ok parseFailedFallback
  | some .null => .ok parseFailedFallback
  | some (.obj members) => do
    let msRaw := (pyObjGet members "machine_states").getD (.obj [])
    let msMembers := match msRaw with
      | .obj mm => mm
      | _ => []
    let turnOffRaw := match (pyObjGet msMembers "0").getD (.arr []) with
      | .arr xs => xs
      | _ => []
    let turnOnRaw := match (pyObjGet msMembers "1").getD (.arr []) with
      | .arr xs => xs
      | _ => []
    let turnOff ← normaliseMachineNames turnOffRaw canonicalNames aliasMap
    let turnOn ← normaliseMachineNames turnOnRaw canonicalNames aliasMap
    let reasoning := pyStrip (pyStr ((pyObjGet members "reasoning").getD (.str "")))
    pure { reasoning := reasoning, turnOff := turnOff, turnOn := turnOn }
  | some _ => .error "AttributeError: get"


/-- audio.SAMPLE_RATE (asr/utils.py). -/
def sampleRate : Nat := 16000

/-- audio.BLOCK_SIZE: 20 ms at 16 kHz. -/
def blockSize : Nat := 320

/-- audio.SPEECH_RMS_THRESHOLD. -/
def speechRmsThreshold : ℚ := mkRat 12 1000

/-- audio.SILENCE_RMS_THRESHOLD. -/
def silenceRmsThreshold : ℚ := mkRat 7 1000

/-- audio.AudioCapture._silence_frames_needed:
`int(SILENCE_DURATION_SEC * sample_rate / BLOCK_SIZE)` — the float
expression `int(0.75 * 16000 / 320)` evaluates exactly to 37, as does
this rational truncation. -/
def silenceFramesNeeded : Nat := 3 * sampleRate / (4 * blockSize)

/-- audio.AudioCapture._min_speech_samples: `int(MIN_SPEECH_SEC * sample_rate)`
(`int(0.30 * 16000)` rounds to exactly 4800 in IEEE doubles). -/
def minSpeechSamples : Nat := 3 * sampleRate / 10

/-- audio.AudioCapture._max_speech_samples: `int(MAX_SPEECH_SEC * sample_rate)`. -/
def maxSpeechSamples : Nat := 10 * sampleRate

/-- audio.AudioCapture._pre_roll_samples: `int(PRE_ROLL_SEC * sample_rate)`. -/
def preRollSamples : Nat := sampleRate / 2

/-- One audio block taken from the worker queue.  Samples are abstract
integers; the floating-point RMS the worker computes from the block is
modelled as a rational carried with the block, since only its comparison
against the two thresholds steers the state machine. -/
structure AudioBlock where
  samples : List Int
  rmsVal : ℚ
deriving DecidableEq, Repr

/-- audio._VadState. -/
inductive VState where
  | idle
  | speaking
  | trailing
deriving DecidableEq, Repr

/-- Mutable VAD fields of audio.AudioCapture. -/
structure VadState where
  state : VState
  preRoll : List Int
  speechBuf : List Int
  silenceCount : Nat
deriving DecidableEq, Repr

/-- Initial VAD state of a fresh AudioCapture. -/
def vadInit : VadState := ⟨.idle, [], [], 0⟩

/-- `deque(maxlen=n).extend`: append and keep the newest `n` elements. -/
def dequeExtend (maxlen : Nat) (buf xs : List Int) : List Int :=
  let b := buf ++ xs
  b.drop (b.length - maxlen)

/-- Result of one audio.AudioCapture._emit_utterance call: the assembled
audio (pre-roll ++ speech buffer, truncated to the hard cap) and whether
it was long enough to be delivered to the callback. -/
structure Emission where
  audio : List Int
  delivered : Bool
deriving DecidableEq, Repr

/-- audio.AudioCapture._emit_utterance. -/
def emitUtterance (st : VadState) : Emission :=
  let audio := (st.preRoll ++ st.speechBuf).take maxSpeechSamples
  { audio := audio, delivered := decide (minSpeechSamples ≤ audio.length) }

/-- One iteration of the audio.AudioCapture._worker loop: `none` is a
`queue.Empty` poll timeout, `some block` a dequeued audio block.  Returns
the next state and the emission, if `_emit_utterance` ran. -/
def vadStep (st : VadState) (ev : Option AudioBlock) : VadState × Option Emission :=
  match ev with
  | none =>
    if st.state = .trailing then
      let cnt := st.silenceCount + 1
      if silenceFramesNeeded ≤ cnt then
        ({ st with speechBuf := [], silenceCount := 0, state := .idle },
         some (emitUtterance st))
      else ({ st with silenceCount := cnt }, none)
    else (st, none)
  | some block =>
    match st.state with
    | .idle =>
      let pr := dequeExtend preRollSamples st.preRoll block.samples
      if speechRmsThreshold ≤ block.rmsVal then
        ({ st with preRoll := pr, state := .speaking, speechBuf := block.samples }, none)
      else ({ st with preRoll := pr }, none)
    | .speaking =>
      let buf := st.speechBuf ++ block.samples
      if maxSpeechSamples ≤ buf.length then
        (⟨.idle, [], [], 0⟩, some (emitUtterance { st with speechBuf := buf }))
      else if block.rmsVal < silenceRmsThreshold then
        ({ st with speechBuf := buf, state := .trailing, silenceCount := 1 }, none)
      else ({ st with speechBuf := buf }, none)
    | .trailing =>
      let buf := st.speechBuf ++ block.samples
      if speechRmsThreshold ≤ block.rmsVal then
        ({ st with speechBuf := buf, state := .speaking, silenceCount := 0 }, none)
      else
        let cnt := st.silenceCount + 1
        if silenceFramesNeeded ≤ cnt then
          (⟨.idle, [], [], 0⟩, some (emitUtterance { st with speechBuf := buf }))
        else ({ st with speechBuf := buf, silenceCount := cnt }, none)

/-- Worker loop over a finite event trace, collecting emissions in order. -/
def vadRun (st : VadState) (evs : List (Option AudioBlock)) : VadState × List Emission :=
  evs.foldl (fun acc ev =>
    let r := vadStep acc.1 ev
    (r.1, acc.2 ++ r.2.toList)) (st, [])

/-- pipeline.ORPipeline._on_transcription acting on the pending queue
(capacity `maxsize`): `put_nowait`, and on `queue.Full` drop the oldest
item and retry (on an empty full queue the `queue.Empty` of `get_nowait`
is swallowed and the item is dropped). -/
def onTranscription (maxsize : Nat) (q : List (String × String))
    (item : String × String) : List (String × String) :=
  if q.length < maxsize then q ++ [item]
  else
    match q with
    | [] => q
    | _ :: rest => if rest.length < maxsize then rest ++ [item] else rest




/-- Key generated for machine `m` in the alias map: the lowered canonical
name or a lowered declared alias. -/
abbrev genKey (m : Machine) (k : String) : Prop :=
  k = pyLower m.name ∨ ∃ a ∈ m.aliases, k = pyLower a

/-- Partition property a snapshot must satisfy with respect to the
catalog's name list: on ++ off is a permutation of the names, has no
duplicates, and the two lists are disjoint. -/
def partitions (snap : Snapshot) (names : List String) : Prop :=
  (snap.onNames ++ snap.offNames).Perm names ∧
  (snap.onNames ++ snap.offNames).Nodup ∧
  snap.onNames.Disjoint snap.offNames

/-! ## Helper lemmas -/

theorem machineNames_setOn (ms : List MachineEntry) (c : String) (v : Bool) :
    machineNames (setOn ms c v) = machineNames ms := by
  unfold machineNames setOn
  rw [List.map_map]
  refine List.map_congr_left ?_
  intro m _
  by_cases h : m.name == c <;> simp [h] <;> split <;> rfl

theorem machineNames_turnOnStep (acc : List MachineEntry) (n : String) :
    machineNames (turnOnStep acc n) = machineNames acc := by
  unfold turnOnStep
  cases resolveName (machineNames acc) n with
  | none => rfl
  | some c => exact machineNames_setOn acc c true

theorem machineNames_turnOffStep (acc : List MachineEntry) (n : String) :
    machineNames (turnOffStep acc n) = machineNames acc := by
  unfold turnOffStep
  cases resolveName (machineNames acc) n with
  | none => rfl
  | some c => exact machineNames_setOn acc c false

theorem machineNames_foldl_turnOn (ns : List String) :
    ∀ acc, machineNames (ns.foldl turnOnStep acc) = machineNames acc := by
  induction ns with
  | nil => intro acc; rfl
  | cons n ns ih =>
    intro acc
    rw [List.foldl_cons, ih, machineNames_turnOnStep]

theorem machineNames_foldl_turnOff (ns : List String) :
    ∀ acc, machineNames (ns.foldl turnOffStep acc) = machineNames acc := by
  induction ns with
  | nil => intro acc; rfl
  | cons n ns ih =>
    intro acc
    rw [List.foldl_cons, ih, machineNames_turnOffStep]

theorem machineNames_applyUpdate (ms : List MachineEntry) (req : StateUpdateRequest) :
    machineNames (applyUpdate ms req) = machineNames ms := by
  unfold applyUpdate
  rw [machineNames_foldl_turnOff, machineNames_foldl_turnOn]

theorem machineNames_foldl_applyUpdate (reqs : List StateUpdateRequest) :
    ∀ ms, machineNames (reqs.foldl applyUpdate ms) = machineNames ms := by
  induction reqs with
  | nil => intro ms; rfl
  | cons req reqs ih =>
    intro ms
    rw [List.foldl_cons, ih, machineNames_applyUpdate]

theorem machineNames_initMachines (catalog : Catalog) :
    machineNames (initMachines catalog) = getMachineNames catalog := by
  unfold machineNames initMachines getMachineNames
  rw [List.map_map]
  rfl

theorem machineNames_resetMachines (ms : List MachineEntry) :
    machineNames (resetMachines ms) = machineNames ms := by
  unfold machineNames resetMachines
  rw [List.map_map]
  rfl

theorem buildSnapshot_perm (ms : List MachineEntry) :
    ((buildSnapshot ms).onNames ++ (buildSnapshot ms).offNames).Perm (machineNames ms) := by
  have h := (List.filter_append_perm (fun m => m.isOn) ms).map MachineEntry.name
  simpa [buildSnapshot, machineNames, List.map_append] using h

theorem partitions_buildSnapshot (ms : List MachineEntry) (names : List String)
    (h : machineNames ms = names) (hnd : names.Nodup) :
    partitions (buildSnapshot ms) names := by
  have hperm := buildSnapshot_perm ms
  rw [h] at hperm
  have hnodup : ((buildSnapshot ms).onNames ++ (buildSnapshot ms).offNames).Nodup :=
    hperm.nodup_iff.mpr hnd
  exact ⟨hperm, hnodup, (List.nodup_append.mp hnodup).2.2⟩

theorem setOn_eq_self {ms : List MachineEntry} {c : String} {v : Bool}
    (h : ∀ m ∈ ms, m.name = c → m.isOn = v) : setOn ms c v = ms := by
  induction ms with
  | nil => rfl
  | cons m ms ih =>
    have hms : setOn ms c v = ms := ih (fun m' hm' => h m' (List.mem_cons_of_mem m hm'))
    unfold setOn at hms ⊢
    simp only [List.map_cons, hms]
    by_cases hm : m.name == c
    · have : m.isOn = v := h m (List.mem_cons_self m ms) (by simpa using hm)
      simp [hm, ← this]
    · simp [hm]

theorem fold_turnOn_id {ms : List MachineEntry} (ns : List String)
    (h : ∀ n ∈ ns, ∃ c, resolveName (machineNames ms) n = some c ∧
      ∀ m ∈ ms, m.name = c → m.isOn = true) :
    ns.foldl turnOnStep ms = ms := by
  induction ns with
  | nil => rfl
  | cons n ns ih =>
    obtain ⟨c, hres, hon⟩ := h n (List.mem_cons_self n ns)
    have hstep : turnOnStep ms n = ms := by
      unfold turnOnStep
      rw [hres]
      exact setOn_eq_self hon
    rw [List.foldl_cons, hstep]
    exact ih (fun n' hn' => h n' (List.mem_cons_of_mem n hn'))

theorem resolveName_mem {names : List String} {n c : String}
    (h : resolveName names n = some c) : c ∈ names := by
  unfold resolveName at h
  split at h
  · have hn : n ∈ names := by
      rename_i hc
      exact List.mem_of_elem_eq_true hc
    obtain rfl : n = c := by injection h
    exact hn
  · have h' : (match List.find? (fun c => pyLower c == pyStrip (pyLower n)) names with
      | some c => some c
      | none => List.find? (fun c => pyContains (pyStrip (pyLower n)) (pyLower c)) names)
        = some c := h
    cases hfind : List.find? (fun c => pyLower c == pyStrip (pyLower n)) names with
    | some x =>
      rw [hfind] at h'
      obtain rfl : x = c := by injection h'
      exact List.mem_of_find?_eq_some hfind
    | none =>
      rw [hfind] at h'
      exact List.mem_of_find?_eq_some h'

theorem turnOffStep_preserves_off {acc : List MachineEntry} {c : String} (n : String)
    (h : ∀ m ∈ acc, m.name = c → m.isOn = false) :
    ∀ m ∈ turnOffStep acc n, m.name = c → m.isOn = false := by
  unfold turnOffStep
  cases hres : resolveName (machineNames acc) n with
  | none => exact h
  | some c' =>
    intro m hm hname
    unfold setOn at hm
    obtain ⟨m₀, hm₀, rfl⟩ := List.mem_map.mp hm
    by_cases hk : m₀.name == c'
    · simp [hk]
    · rw [if_neg hk] at hname ⊢
      exact h m₀ hm₀ hname

theorem turnOffStep_sets_off {acc : List MachineEntry} {c : String} {n : String}
    (hres : resolveName (machineNames acc) n = some c) :
    ∀ m ∈ turnOffStep acc n, m.name = c → m.isOn = false := by
  unfold turnOffStep
  rw [hres]
  intro m hm hname
  unfold setOn at hm
  obtain ⟨m₀, hm₀, rfl⟩ := List.mem_map.mp hm
  by_cases hk : m₀.name == c
  · simp [hk]
  · rw [if_neg (by simpa using hk)] at hname ⊢
    exact absurd hname (by simpa using hk)

theorem fold_turnOff_preserves_off {c : String} (ns : List String) :
    ∀ acc : List MachineEntry, (∀ m ∈ acc, m.name = c → m.isOn = false) →
    ∀ m ∈ ns.foldl turnOffStep acc, m.name = c → m.isOn = false := by
  induction ns with
  | nil => intro acc h; exact h
  | cons n ns ih =>
    intro acc h
    rw [List.foldl_cons]
    exact ih _ (turnOffStep_preserves_off n h)

theorem fold_turnOff_all_off {c : String} (ns : List String) :
    ∀ acc : List MachineEntry, (∃ n ∈ ns, resolveName (machineNames acc) n = some c) →
    ∀ m ∈ ns.foldl turnOffStep acc, m.name = c → m.isOn = false := by
  induction ns with
  | nil => intro acc h; exact absurd h.choose_spec.1 (List.not_mem_nil _)
  | cons n ns ih =>
    intro acc h
    obtain ⟨n₀, hn₀, hres⟩ := h
    rw [List.foldl_cons]
    rcases List.mem_cons.mp hn₀ with rfl | hmem
    · exact fold_turnOff_preserves_off ns _ (turnOffStep_sets_off hres)
    · refine ih _ ⟨n₀, hmem, ?_⟩
      rw [machineNames_turnOffStep]
      exact hres

/-! ## Claim theorems -/

/-- C2: for every catalog with duplicate-free entity names and every
sequence of apply_update calls, the snapshot built from the resulting
state (as returned by apply_update and get_snapshot) and the snapshot
built by reset partition the catalog exactly: the on-list and off-list
names together are a permutation of the catalog's names, with no
duplicates and empty intersection. -/
theorem claim_C2_partition (catalog : Catalog) (reqs : List StateUpdateRequest)
    (hnd : (getMachineNames catalog).Nodup) :
    partitions (buildSnapshot (reqs.foldl applyUpdate (initMachines catalog)))
      (getMachineNames catalog) ∧
    partitions (buildSnapshot (resetMachines (reqs.foldl applyUpdate (initMachines catalog))))
      (getMachineNames catalog) := by
  have hnames : machineNames (reqs.foldl applyUpdate (initMachines catalog))
      = getMachineNames catalog := by
    rw [machineNames_foldl_applyUpdate, machineNames_initMachines]
  refine ⟨partitions_buildSnapshot _ _ hnames hnd, partitions_buildSnapshot _ _ ?_ hnd⟩
  rw [machineNames_resetMachines, hnames]

/-- C2 witness at the heart-transplant catalog with one concrete update. -/
theorem claim_C2_partition_witness :
    partitions (buildSnapshot ([⟨["monitor"], ["vent"], "turn on the monitor", ""⟩].foldl
      applyUpdate (initMachines heartCatalog))) (getMachineNames heartCatalog) ∧
    partitions (buildSnapshot (resetMachines ([⟨["monitor"], ["vent"], "turn on the monitor", ""⟩].foldl
      applyUpdate (initMachines heartCatalog)))) (getMachineNames heartCatalog) :=
  claim_C2_partition heartCatalog [⟨["monitor"], ["vent"], "turn on the monitor", ""⟩] (by decide)

/-- C9: an apply_update whose turn_on names all resolve to machines that
are already ON, and whose turn_off list is empty, leaves the machines
dict unchanged, hence returns a snapshot with identical on/off
membership and no duplicated names. -/
theorem claim_C9_idempotent (ms : List MachineEntry) (req : StateUpdateRequest)
    (hoff : req.turnOff = [])
    (hon : ∀ n ∈ req.turnOn, ∃ c, resolveName (machineNames ms) n = some c ∧
      ∀ m ∈ ms, m.name = c → m.isOn = true) :
    applyUpdate ms req = ms ∧ buildSnapshot (applyUpdate ms req) = buildSnapshot ms := by
  have h2 : applyUpdate ms req = ms := by
    unfold applyUpdate
    rw [fold_turnOn_id req.turnOn hon, hoff, List.foldl_nil]
  exact ⟨h2, by rw [h2]⟩

/-- C9 witness: with Patient Monitor already ON, turning on "monitor"
leaves the heart-transplant state unchanged. -/
theorem claim_C9_idempotent_witness :
    applyUpdate (setOn (initMachines heartCatalog) "Patient Monitor" true)
      ⟨["monitor"], [], "", ""⟩ = setOn (initMachines heartCatalog) "Patient Monitor" true ∧
    buildSnapshot (applyUpdate (setOn (initMachines heartCatalog) "Patient Monitor" true)
      ⟨["monitor"], [], "", ""⟩)
      = buildSnapshot (setOn (initMachines heartCatalog) "Patient Monitor" true) :=
  claim_C9_idempotent _ _ rfl (by
    intro n hn
    simp only [List.mem_singleton] at hn
    subst hn
    exact ⟨"Patient Monitor", by decide, by decide⟩)

/-- C1 counterexample: with the heart-transplant catalog, a request
naming "Patient Monitor" in both turn_on and turn_off leaves it OFF in
the returned snapshot, refuting the claim that such an entity ends up
ON ("on" wins ties). -/
theorem claim_C1_counterexample :
    "Patient Monitor" ∈ (buildSnapshot (applyUpdate (initMachines heartCatalog)
      ⟨["Patient Monitor"], ["Patient Monitor"], "", ""⟩)).offNames ∧
    "Patient Monitor" ∉ (buildSnapshot (applyUpdate (initMachines heartCatalog)
      ⟨["Patient Monitor"], ["Patient Monitor"], "", ""⟩)).onNames := by
  decide

/-- C1 (amended): an entity whose name is resolved from both the turn_on
and the turn_off lists ends up OFF in the returned snapshot — apply_update
applies turn_on first and turn_off second, so "off" wins ties. -/
theorem claim_C1_amended (ms : List MachineEntry) (req : StateUpdateRequest)
    (c n₁ n₂ : String)
    (_h₁ : n₁ ∈ req.turnOn) (_hr₁ : resolveName (machineNames ms) n₁ = some c)
    (h₂ : n₂ ∈ req.turnOff) (hr₂ : resolveName (machineNames ms) n₂ = some c) :
    c ∈ (buildSnapshot (applyUpdate ms req)).offNames ∧
    c ∉ (buildSnapshot (applyUpdate ms req)).onNames := by
  have hall : ∀ m ∈ applyUpdate ms req, m.name = c → m.isOn = false := by
    unfold applyUpdate
    refine fold_turnOff_all_off req.turnOff _ ⟨n₂, h₂, ?_⟩
    rw [machineNames_foldl_turnOn]
    exact hr₂
  have hcmem : c ∈ machineNames (applyUpdate ms req) := by
    rw [machineNames_applyUpdate]
    exact resolveName_mem hr₂
  unfold machineNames at hcmem
  obtain ⟨m₀, hm₀, hm₀name⟩ := List.mem_map.mp hcmem
  constructor
  · have hoffm : m₀.isOn = false := hall m₀ hm₀ hm₀name
    unfold buildSnapshot
    refine List.mem_map.mpr ⟨m₀, List.mem_filter.mpr ⟨hm₀, ?_⟩, hm₀name⟩
    simp [hoffm]
  · intro hcon
    unfold buildSnapshot at hcon
    obtain ⟨m₁, hm₁f, hm₁name⟩ := List.mem_map.mp hcon
    obtain ⟨hm₁, hm₁on⟩ := List.mem_filter.mp hm₁f
    have := hall m₁ hm₁ hm₁name
    rw [this] at hm₁on
    exact Bool.false_ne_true hm₁on

/-- C1 witness: concrete tie at the heart-transplant catalog. -/
theorem claim_C1_amended_witness :
    "Patient Monitor" ∈ (buildSnapshot (applyUpdate (initMachines heartCatalog)
      ⟨["Patient Monitor"], ["Patient Monitor"], "toggle the monitor", "tie"⟩)).offNames ∧
    "Patient Monitor" ∉ (buildSnapshot (applyUpdate (initMachines heartCatalog)
      ⟨["Patient Monitor"], ["Patient Monitor"], "toggle the monitor", "tie"⟩)).onNames :=
  claim_C1_amended _ _ "Patient Monitor" "Patient Monitor" "Patient Monitor"
    (by decide) (by decide) (by decide) (by decide)

theorem onTranscription_fill (N : Nat) (items : List (String × String)) :
    ∀ q : List (String × String), q.length + items.length ≤ N →
    items.foldl (onTranscription N) q = q ++ items := by
  induction items with
  | nil => intro q _; simp
  | cons a items ih =>
    intro q h
    simp only [List.length_cons] at h
    have hq : q.length < N := by omega
    have hstep : onTranscription N q a = q ++ [a] := by
      unfold onTranscription
      rw [if_pos hq]
    have hlen : (q ++ [a]).length + items.length ≤ N := by
      simp only [List.length_append, List.length_cons, List.length_nil]
      omega
    rw [List.foldl_cons, hstep, ih (q ++ [a]) hlen, List.append_assoc]
    rfl

/-- C6: enqueuing N+1 items through the transcription callback into an
empty queue of capacity N ≥ 1, with no concurrent consumer, retains the
last N items in FIFO order: the oldest item is dropped, the rest and the
new item survive. -/
theorem claim_C6_overflow (N : Nat) (items : List (String × String))
    (hN : 1 ≤ N) (hlen : items.length = N + 1) :
    items.foldl (onTranscription N) [] = items.tail := by
  have hne : items ≠ [] := by
    intro h
    rw [h] at hlen
    simp at hlen
  obtain ⟨front, last, rfl⟩ : ∃ front last, items = front ++ [last] :=
    ⟨items.dropLast, items.getLast hne, (List.dropLast_append_getLast hne).symm⟩
  have hfl : front.length = N := by
    simp only [List.length_append, List.length_singleton] at hlen
    omega
  obtain ⟨f₀, front', rfl⟩ : ∃ f₀ front', front = f₀ :: front' := by
    cases front with
    | nil => simp at hfl; omega
    | cons f₀ front' => exact ⟨f₀, front', rfl⟩
  rw [List.foldl_append,
    onTranscription_fill N (f₀ :: front') [] (by simp only [List.length_nil, hfl]; omega),
    List.nil_append, List.foldl_cons, List.foldl_nil]
  simp only [List.length_cons] at hfl
  show onTranscription N (f₀ :: front') last = _
  unfold onTranscription
  rw [if_neg (by simp only [List.length_cons]; omega)]
  show (if front'.length < N then front' ++ [last] else front') = _
  rw [if_pos (by omega)]
  simp [List.cons_append]

/-- C6 witness at capacity 3 with 4 concrete items. -/
theorem claim_C6_overflow_witness :
    [("a", "1"), ("b", "2"), ("c", "3"), ("d", "4")].foldl (onTranscription 3) []
      = [("a", "1"), ("b", "2"), ("c", "3"), ("d", "4")].tail :=
  claim_C6_overflow 3 [("a", "1"), ("b", "2"), ("c", "3"), ("d", "4")] (by decide) (by decide)

theorem setOn_all {ms : List MachineEntry} {c : String} {v : Bool} :
    ∀ m ∈ setOn ms c v, m.name = c → m.isOn = v := by
  intro m hm hname
  unfold setOn at hm
  obtain ⟨m₀, hm₀, rfl⟩ := List.mem_map.mp hm
  by_cases hk : m₀.name == c
  · simp [hk]
  · rw [if_neg (by simpa using hk)] at hname ⊢
    exact absurd hname (by simpa using hk)

theorem pyLower_eq_empty_iff (x : String) : pyLower x = "" ↔ x = "" := by
  constructor
  · intro h
    have hd : x.data.map Char.toLower = [] := congrArg String.data h
    have : x.data = [] := List.map_eq_nil_iff.mp hd
    cases x
    simp_all
  · rintro rfl
    rfl

theorem pyContains_empty_left (h : String) : pyContains "" h = true := by
  unfold pyContains listInfix
  rw [List.any_eq_true]
  exact ⟨h.data, (List.mem_tails _ _).mpr (List.suffix_refl _),
    List.isPrefixOf_iff_prefix.mpr List.nil_prefix⟩

theorem pyContains_refl (x : String) : pyContains x x = true := by
  unfold pyContains listInfix
  rw [List.any_eq_true]
  exact ⟨x.data, (List.mem_tails _ _).mpr (List.suffix_refl _),
    List.isPrefixOf_iff_prefix.mpr (List.prefix_refl _)⟩

theorem pyContains_empty_right {k : String} (h : pyContains k "" = true) : k = "" := by
  unfold pyContains listInfix at h
  obtain ⟨t, ht, hpre⟩ := List.any_eq_true.mp h
  have : t <:+ ([] : List Char) := (List.mem_tails _ _).mp ht
  have ht0 : t = [] := List.suffix_nil.mp this
  rw [ht0] at hpre
  have : k.data = [] := List.prefix_nil.mp (List.isPrefixOf_iff_prefix.mp hpre)
  cases k
  simp_all

theorem dictInsert_mem {m : List (String × String)} {k v : String} {p : String × String}
    (h : p ∈ dictInsert m k v) : p ∈ m ∨ p = (k, v) := by
  unfold dictInsert at h
  split at h
  · obtain ⟨q, hq, hqe⟩ := List.mem_map.mp h
    by_cases hk : (q.1 == k) = true
    · rw [if_pos hk] at hqe
      exact Or.inr hqe.symm
    · rw [if_neg hk] at hqe
      exact Or.inl (hqe ▸ hq)
  · rcases List.mem_append.mp h with h1 | h1
    · exact Or.inl h1
    · exact Or.inr (List.mem_singleton.mp h1)

theorem dictInsert_key_mem (m : List (String × String)) (k v : String) :
    ∃ p ∈ dictInsert m k v, p.1 = k := by
  unfold dictInsert
  split
  · rename_i hany
    obtain ⟨q, hq, hqk⟩ := List.any_eq_true.mp hany
    exact ⟨(k, v), List.mem_map.mpr ⟨q, hq, by rw [if_pos hqk]⟩, rfl⟩
  · exact ⟨(k, v), List.mem_append.mpr (Or.inr (List.mem_singleton.mpr rfl)), rfl⟩

theorem dictInsert_key_preserved {m : List (String × String)} {k' : String}
    (h : ∃ p ∈ m, p.1 = k') (k v : String) :
    ∃ p ∈ dictInsert m k v, p.1 = k' := by
  obtain ⟨q, hq, hqk⟩ := h
  unfold dictInsert
  split
  · by_cases hk : (q.1 == k) = true
    · refine ⟨(k, v), List.mem_map.mpr ⟨q, hq, by rw [if_pos hk]⟩, ?_⟩
      have : q.1 = k := by simpa using hk
      rw [← this, hqk]
    · exact ⟨q, List.mem_map.mpr ⟨q, hq, by rw [if_neg hk]⟩, hqk⟩
  · exact ⟨q, List.mem_append.mpr (Or.inl hq), hqk⟩

theorem innerFold_mem (v : String) (as : List String) :
    ∀ am0 p, p ∈ as.foldl (fun am a => dictInsert am (pyLower a) v) am0 →
    p ∈ am0 ∨ ∃ a ∈ as, p = (pyLower a, v) := by
  induction as with
  | nil => intro am0 p hp; exact Or.inl hp
  | cons a as ih =>
    intro am0 p hp
    rw [List.foldl_cons] at hp
    rcases ih _ p hp with h | ⟨a', ha', he⟩
    · rcases dictInsert_mem h with h0 | he
      · exact Or.inl h0
      · exact Or.inr ⟨a, List.mem_cons_self a as, he⟩
    · exact Or.inr ⟨a', List.mem_cons_of_mem a ha', he⟩

theorem outerFold_mem (cats : List Machine) :
    ∀ am0 p, p ∈ cats.foldl (fun am machine =>
      machine.aliases.foldl (fun am a => dictInsert am (pyLower a) machine.name)
        (dictInsert am (pyLower machine.name) machine.name)) am0 →
    p ∈ am0 ∨ ∃ m ∈ cats, p.2 = m.name ∧ genKey m p.1 := by
  induction cats with
  | nil => intro am0 p hp; exact Or.inl hp
  | cons machine cats ih =>
    intro am0 p hp
    rw [List.foldl_cons] at hp
    rcases ih _ p hp with h1 | ⟨m, hm, h2, h3⟩
    · rcases innerFold_mem machine.name machine.aliases _ p h1 with h4 | ⟨a, ha, he⟩
      · rcases dictInsert_mem h4 with h5 | he
        · exact Or.inl h5
        · exact Or.inr ⟨machine, List.mem_cons_self _ _, by rw [he], by rw [he]; exact Or.inl rfl⟩
      · exact Or.inr ⟨machine, List.mem_cons_self _ _, by rw [he],
          by rw [he]; exact Or.inr ⟨a, ha, rfl⟩⟩
    · exact Or.inr ⟨m, List.mem_cons_of_mem _ hm, h2, h3⟩

theorem buildAliasMap_mem (catalog : Catalog) (p : String × String)
    (hp : p ∈ buildAliasMap catalog) :
    ∃ m ∈ catalog, p.2 = m.name ∧ genKey m p.1 := by
  rcases outerFold_mem catalog [] p hp with h | h
  · exact absurd h (List.not_mem_nil p)
  · exact h

theorem innerFold_key_preserved (v : String) (as : List String) :
    ∀ am0 k', (∃ p ∈ am0, p.1 = k') →
    ∃ p ∈ as.foldl (fun am a => dictInsert am (pyLower a) v) am0, p.1 = k' := by
  induction as with
  | nil => intro am0 k' h; exact h
  | cons a as ih =>
    intro am0 k' h
    rw [List.foldl_cons]
    exact ih _ k' (dictInsert_key_preserved h _ _)

theorem innerFold_key_mem (v : String) (as : List String) :
    ∀ am0 a, a ∈ as →
    ∃ p ∈ as.foldl (fun am a => dictInsert am (pyLower a) v) am0, p.1 = pyLower a := by
  induction as with
  | nil => intro am0 a ha; exact absurd ha (List.not_mem_nil a)
  | cons a' as ih =>
    intro am0 a ha
    rw [List.foldl_cons]
    rcases List.mem_cons.mp ha with rfl | hmem
    · exact innerFold_key_preserved v as _ _ (dictInsert_key_mem am0 (pyLower a) v)
    · exact ih _ a hmem

theorem outerFold_key_preserved (cats : List Machine) :
    ∀ am0 k', (∃ p ∈ am0, p.1 = k') →
    ∃ p ∈ cats.foldl (fun am machine =>
      machine.aliases.foldl (fun am a => dictInsert am (pyLower a) machine.name)
        (dictInsert am (pyLower machine.name) machine.name)) am0, p.1 = k' := by
  induction cats with
  | nil => intro am0 k' h; exact h
  | cons machine cats ih =>
    intro am0 k' h
    rw [List.foldl_cons]
    exact ih _ k' (innerFold_key_preserved machine.name machine.aliases _ k'
      (dictInsert_key_preserved h _ _))

theorem outerFold_key_exists (cats : List Machine) :
    ∀ am0 m k, m ∈ cats → genKey m k →
    ∃ p ∈ cats.foldl (fun am machine =>
      machine.aliases.foldl (fun am a => dictInsert am (pyLower a) machine.name)
        (dictInsert am (pyLower machine.name) machine.name)) am0, p.1 = k := by
  induction cats with
  | nil => intro am0 m k hm _; exact absurd hm (List.not_mem_nil m)
  | cons machine cats ih =>
    intro am0 m k hm hk
    rw [List.foldl_cons]
    rcases List.mem_cons.mp hm with rfl | hmem
    · refine outerFold_key_preserved cats _ k ?_
      rcases hk with rfl | ⟨a, ha, rfl⟩
      · exact innerFold_key_preserved m.name m.aliases _ _ (dictInsert_key_mem am0 _ m.name)
      · exact innerFold_key_mem m.name m.aliases _ a ha
    · exact ih _ m k hmem hk

theorem buildAliasMap_key_exists (catalog : Catalog) (m : Machine) (k : String)
    (hm : m ∈ catalog) (hk : genKey m k) :
    ∃ p ∈ buildAliasMap catalog, p.1 = k :=
  outerFold_key_exists catalog [] m k hm hk

theorem dictGet_eq_of {am : List (String × String)} {k target : String}
    (hex : ∃ p ∈ am, p.1 = k) (hall : ∀ p ∈ am, p.1 = k → p.2 = target) :
    dictGet am k = some target := by
  unfold dictGet
  cases hfind : am.find? (fun p => p.1 == k) with
  | none =>
    obtain ⟨q, hq, hqk⟩ := hex
    have := List.find?_eq_none.mp hfind q hq
    simp [hqk] at this
  | some p₀ =>
    have hp₀ : p₀ ∈ am := List.mem_of_find?_eq_some hfind
    have hpk := List.find?_some hfind
    have hv : p₀.2 = target := hall p₀ hp₀ (by simpa using hpk)
    simp [hv]

theorem buildAliasMap_lookup (catalog : Catalog) (m : Machine) (k : String)
    (hm : m ∈ catalog) (hk : genKey m k)
    (huniq : ∀ m' ∈ catalog, genKey m' k → m'.name = m.name) :
    dictGet (buildAliasMap catalog) k = some m.name := by
  refine dictGet_eq_of (buildAliasMap_key_exists catalog m k hm hk) ?_
  intro p hp hpk
  obtain ⟨m', hm', hval, hgen⟩ := buildAliasMap_mem catalog p hp
  rw [hval]
  exact huniq m' hm' (hpk ▸ hgen)

/-- C10: for every non-empty catalog (whose names are non-empty, none
equal to the input, and whose aliases do not lower to the empty string),
resolving any string whose lowered stripped form is empty does not report
no-match: both resolvers return the catalog's first machine, and
apply_update with that string in turn_on turns the first machine ON. -/
theorem claim_C10_empty_matches_first (catalog : Catalog) (s : String)
    (hne : catalog ≠ [])
    (hs : pyStrip (pyLower s) = "")
    (hnm : ∀ m ∈ catalog, m.name ≠ "" ∧ s ≠ m.name ∧ ∀ a ∈ m.aliases, pyLower a ≠ "") :
    resolveName (getMachineNames catalog) s = some ((catalog.head hne).name) ∧
    fuzzyMatchMachine s (getMachineNames catalog) (buildAliasMap catalog)
      = some ((catalog.head hne).name) ∧
    ∀ m ∈ applyUpdate (initMachines catalog) ⟨[s], [], "", ""⟩,
      m.name = (catalog.head hne).name → m.isOn = true := by
  obtain ⟨m₀, cats, rfl⟩ : ∃ m₀ cats, catalog = m₀ :: cats := by
    cases catalog with
    | nil => exact absurd rfl hne
    | cons m₀ cats => exact ⟨m₀, cats, rfl⟩
  have hcontains : (getMachineNames (m₀ :: cats)).contains s = false := by
    cases hc : (getMachineNames (m₀ :: cats)).contains s with
    | false => rfl
    | true =>
      exfalso
      obtain ⟨m', hm', hm'name⟩ := List.mem_map.mp (List.mem_of_elem_eq_true hc)
      exact (hnm m' hm').2.1 hm'name.symm
  have hfind1 : (getMachineNames (m₀ :: cats)).find? (fun c => pyLower c == pyStrip (pyLower s))
      = none := by
    rw [List.find?_eq_none]
    intro nm hmem
    obtain ⟨m', hm', hm'name⟩ := List.mem_map.mp hmem
    rw [hs]
    simp only [beq_iff_eq]
    intro hlow
    exact (hnm m' hm').1 (by
      rw [hm'name]
      exact (pyLower_eq_empty_iff nm).mp hlow)
  have hres : resolveName (getMachineNames (m₀ :: cats)) s = some m₀.name := by
    unfold resolveName
    rw [if_neg (show ¬ ((getMachineNames (m₀ :: cats)).contains s = true) by
      rw [hcontains]; exact Bool.false_ne_true)]
    show (match (getMachineNames (m₀ :: cats)).find?
        (fun c => pyLower c == pyStrip (pyLower s)) with
      | some c => some c
      | none => (getMachineNames (m₀ :: cats)).find?
          (fun c => pyContains (pyStrip (pyLower s)) (pyLower c))) = some m₀.name
    rw [hfind1]
    show (getMachineNames (m₀ :: cats)).find?
      (fun c => pyContains (pyStrip (pyLower s)) (pyLower c)) = some m₀.name
    have hexp : getMachineNames (m₀ :: cats) = m₀.name :: getMachineNames cats := rfl
    rw [hexp, List.find?_cons_of_pos]
    rw [hs]
    exact pyContains_empty_left _
  refine ⟨hres, ?_, ?_⟩
  · have hkeys : ∀ p ∈ buildAliasMap (m₀ :: cats), p.1 ≠ "" := by
      intro p hp
      obtain ⟨m', hm', _, hgen⟩ := buildAliasMap_mem _ p hp
      rcases hgen with he | ⟨a, ha, he⟩
      · rw [he]
        intro hlow
        exact (hnm m' hm').1 ((pyLower_eq_empty_iff m'.name).mp hlow)
      · rw [he]
        exact (hnm m' hm').2.2 a ha
    have hget : dictGet (buildAliasMap (m₀ :: cats)) (pyStrip (pyLower s)) = none := by
      unfold dictGet
      rw [List.find?_eq_none.mpr ?_]
      · rfl
      · intro p hp
        rw [hs]
        simp only [beq_iff_eq]
        exact hkeys p hp
    have hfind2 : (buildAliasMap (m₀ :: cats)).find?
        (fun p => pyContains p.1 (pyStrip (pyLower s))) = none := by
      rw [List.find?_eq_none]
      intro p hp
      rw [hs]
      cases hcon : pyContains p.1 "" with
      | false => simp
      | true => exact absurd (pyContains_empty_right hcon) (hkeys p hp)
    unfold fuzzyMatchMachine
    show (match dictGet (buildAliasMap (m₀ :: cats)) (pyStrip (pyLower s)) with
      | some c => some c
      | none =>
        match (buildAliasMap (m₀ :: cats)).find?
            (fun p => pyContains p.1 (pyStrip (pyLower s))) with
        | some p => some p.2
        | none => (getMachineNames (m₀ :: cats)).find? (fun c =>
            pyContains (pyStrip (pyLower s)) (pyLower c) ||
            pyContains (pyLower c) (pyStrip (pyLower s)))) = some m₀.name
    rw [hget, hfind2]
    show (getMachineNames (m₀ :: cats)).find? (fun c =>
      pyContains (pyStrip (pyLower s)) (pyLower c) ||
      pyContains (pyLower c) (pyStrip (pyLower s))) = some m₀.name
    have hexp : getMachineNames (m₀ :: cats) = m₀.name :: getMachineNames cats := rfl
    rw [hexp, List.find?_cons_of_pos]
    rw [hs]
    simp [pyContains_empty_left]
  · unfold applyUpdate
    simp only [List.foldl_cons, List.foldl_nil]
    have hmn : machineNames (initMachines (m₀ :: cats)) = getMachineNames (m₀ :: cats) :=
      machineNames_initMachines _
    unfold turnOnStep
    rw [hmn, hres]
    exact setOn_all

/-- C10 witness: a whitespace-only input resolves to the first machine of
the heart-transplant catalog and turns it ON. -/
theorem claim_C10_empty_matches_first_witness :
    resolveName (getMachineNames heartCatalog) " " = some ((heartCatalog.head (by decide)).name) ∧
    fuzzyMatchMachine " " (getMachineNames heartCatalog) (buildAliasMap heartCatalog)
      = some ((heartCatalog.head (by decide)).name) ∧
    ∀ m ∈ applyUpdate (initMachines heartCatalog) ⟨[" "], [], "", ""⟩,
      m.name = (heartCatalog.head (by decide)).name → m.isOn = true :=
  claim_C10_empty_matches_first heartCatalog " " (by decide) (by decide) (by decide)

/-- C4 counterexample: the two resolvers are not identical.  The alias
"cpb" of the Cardiopulmonary Bypass Machine resolves in the output
parser but is dropped as unknown by StateManager, and the input "pump"
resolves to two different machines. -/
theorem claim_C4_counterexample :
    resolveName (getMachineNames heartCatalog) "cpb" = none ∧
    fuzzyMatchMachine "cpb" (getMachineNames heartCatalog) (buildAliasMap heartCatalog)
      = some "Cardiopulmonary Bypass Machine" ∧
    resolveName (getMachineNames heartCatalog) "pump" = some "Perfusion Pump" ∧
    fuzzyMatchMachine "pump" (getMachineNames heartCatalog) (buildAliasMap heartCatalog)
      = some "Cardiopulmonary Bypass Machine" := by
  decide

/-- C4 (amended): the two resolvers are not identical in general (the
parser resolves aliases and canonical-in-input substrings that
StateManager does not), but they agree on inputs whose lowered stripped
form equals a catalog machine's lowered canonical name: both return that
machine's canonical id, given injectivity of lowering on the catalog
names, whitespace-free names, and no alias of another machine colliding
with that lowered name. -/
theorem claim_C4_amended (catalog : Catalog) (m : Machine) (s : String)
    (hm : m ∈ catalog)
    (hs : pyStrip (pyLower s) = pyLower m.name)
    (hinj : ∀ m₁ ∈ catalog, ∀ m₂ ∈ catalog, pyLower m₁.name = pyLower m₂.name →
      m₁.name = m₂.name)
    (hws : ∀ m' ∈ catalog, pyStrip (pyLower m'.name) = pyLower m'.name)
    (huniq : ∀ m' ∈ catalog, genKey m' (pyLower m.name) → m'.name = m.name) :
    resolveName (getMachineNames catalog) s = some m.name ∧
    fuzzyMatchMachine s (getMachineNames catalog) (buildAliasMap catalog) = some m.name := by
  constructor
  · by_cases hc : (getMachineNames catalog).contains s = true
    · obtain ⟨m', hm', hm'name⟩ := List.mem_map.mp (List.mem_of_elem_eq_true hc)
      have h1 : pyLower m'.name = pyLower m.name := by
        rw [← hws m' hm', hm'name, hs]
      have h2 : m'.name = m.name := hinj m' hm' m hm h1
      unfold resolveName
      rw [if_pos hc, ← hm'name, h2]
    · unfold resolveName
      rw [if_neg hc]
      show (match (getMachineNames catalog).find?
          (fun c => pyLower c == pyStrip (pyLower s)) with
        | some c => some c
        | none => (getMachineNames catalog).find?
            (fun c => pyContains (pyStrip (pyLower s)) (pyLower c))) = some m.name
      cases hfind : (getMachineNames catalog).find?
          (fun c => pyLower c == pyStrip (pyLower s)) with
      | none =>
        exfalso
        have hmem : m.name ∈ getMachineNames catalog := List.mem_map.mpr ⟨m, hm, rfl⟩
        have := List.find?_eq_none.mp hfind m.name hmem
        rw [hs] at this
        simp at this
      | some x =>
        obtain ⟨m₂, hm₂, hm₂name⟩ :=
          List.mem_map.mp (List.mem_of_find?_eq_some hfind)
        have hpred := List.find?_some hfind
        rw [hs] at hpred
        have hx : pyLower x = pyLower m.name := by simpa using hpred
        have : m₂.name = m.name := by
          refine hinj m₂ hm₂ m hm ?_
          rw [hm₂name, hx]
        rw [← hm₂name, this]
  · unfold fuzzyMatchMachine
    show (match dictGet (buildAliasMap catalog) (pyStrip (pyLower s)) with
      | some c => some c
      | none =>
        match (buildAliasMap catalog).find?
            (fun p => pyContains p.1 (pyStrip (pyLower s))) with
        | some p => some p.2
        | none => (getMachineNames catalog).find? (fun c =>
            pyContains (pyStrip (pyLower s)) (pyLower c) ||
            pyContains (pyLower c) (pyStrip (pyLower s)))) = some m.name
    rw [hs, buildAliasMap_lookup catalog m (pyLower m.name) hm (Or.inl rfl) huniq]

/-- C4 witness: a differently-cased canonical id resolves identically in
both call sites of the heart-transplant catalog. -/
theorem claim_C4_amended_witness :
    resolveName (getMachineNames heartCatalog) "patient MONITOR" = some "Patient Monitor" ∧
    fuzzyMatchMachine "patient MONITOR" (getMachineNames heartCatalog)
      (buildAliasMap heartCatalog) = some "Patient Monitor" :=
  claim_C4_amended heartCatalog
    ⟨"Patient Monitor", ["monitor", "vitals monitor", "cardiac monitor", "hemodynamic monitor"]⟩
    "patient MONITOR" (by decide) (by decide) (by decide) (by decide) (by decide)

/-- C7 counterexample: "perfusion" is a declared alias of the Perfusion
Pump, and the phrase "monitor perfusion" contains it as a substring, yet
the resolver returns Patient Monitor — the alias "monitor" of a different
machine occurs earlier in the alias map. -/
theorem claim_C7_counterexample :
    (Machine.mk "Perfusion Pump" ["perfusion", "cardioplegia pump", "del nido pump"]
      ∈ heartCatalog) ∧
    "perfusion" ∈ (Machine.mk "Perfusion Pump"
      ["perfusion", "cardioplegia pump", "del nido pump"]).aliases ∧
    pyContains (pyLower "perfusion") (pyStrip (pyLower "monitor perfusion")) = true ∧
    fuzzyMatchMachine "monitor perfusion" (getMachineNames heartCatalog)
      (buildAliasMap heartCatalog) = some "Patient Monitor" ∧
    "Patient Monitor" ≠ "Perfusion Pump" := by
  decide

/-- C7 (amended): for an entity m of the catalog with declared alias a,
the resolver maps (i) m's exact canonical name, (ii) any string whose
lowered stripped form equals the lowered alias — provided no other
machine generates that alias-map key — and (iii) any phrase containing
the lowered alias as a substring — provided every alias-map key occurring
in the phrase belongs to m — to m's canonical id. -/
theorem claim_C7_amended (catalog : Catalog) (m : Machine) (a : String)
    (hm : m ∈ catalog) (ha : a ∈ m.aliases)
    (hws : pyStrip (pyLower m.name) = pyLower m.name)
    (huniqC : ∀ m' ∈ catalog, genKey m' (pyLower m.name) → m'.name = m.name) :
    fuzzyMatchMachine m.name (getMachineNames catalog) (buildAliasMap catalog)
      = some m.name ∧
    (∀ s, pyStrip (pyLower s) = pyLower a →
      (∀ m' ∈ catalog, genKey m' (pyLower a) → m'.name = m.name) →
      fuzzyMatchMachine s (getMachineNames catalog) (buildAliasMap catalog) = some m.name) ∧
    (∀ phrase, pyContains (pyLower a) (pyStrip (pyLower phrase)) = true →
      (∀ p ∈ buildAliasMap catalog, pyContains p.1 (pyStrip (pyLower phrase)) = true →
        p.2 = m.name) →
      fuzzyMatchMachine phrase (getMachineNames catalog) (buildAliasMap catalog)
        = some m.name) := by
  refine ⟨?_, ?_, ?_⟩
  · unfold fuzzyMatchMachine
    show (match dictGet (buildAliasMap catalog) (pyStrip (pyLower m.name)) with
      | some c => some c
      | none =>
        match (buildAliasMap catalog).find?
            (fun p => pyContains p.1 (pyStrip (pyLower m.name))) with
        | some p => some p.2
        | none => (getMachineNames catalog).find? (fun c =>
            pyContains (pyStrip (pyLower m.name)) (pyLower c) ||
            pyContains (pyLower c) (pyStrip (pyLower m.name)))) = some m.name
    rw [hws, buildAliasMap_lookup catalog m (pyLower m.name) hm (Or.inl rfl) huniqC]
  · intro s hsl huniqA
    unfold fuzzyMatchMachine
    show (match dictGet (buildAliasMap catalog) (pyStrip (pyLower s)) with
      | some c => some c
      | none =>
        match (buildAliasMap catalog).find?
            (fun p => pyContains p.1 (pyStrip (pyLower s))) with
        | some p => some p.2
        | none => (getMachineNames catalog).find? (fun c =>
            pyContains (pyStrip (pyLower s)) (pyLower c) ||
            pyContains (pyLower c) (pyStrip (pyLower s)))) = some m.name
    rw [hsl, buildAliasMap_lookup catalog m (pyLower a) hm (Or.inr ⟨a, ha, rfl⟩) huniqA]
  · intro phrase hsub hall
    unfold fuzzyMatchMachine
    show (match dictGet (buildAliasMap catalog) (pyStrip (pyLower phrase)) with
      | some c => some c
      | none =>
        match (buildAliasMap catalog).find?
            (fun p => pyContains p.1 (pyStrip (pyLower phrase))) with
        | some p => some p.2
        | none => (getMachineNames catalog).find? (fun c =>
            pyContains (pyStrip (pyLower phrase)) (pyLower c) ||
            pyContains (pyLower c) (pyStrip (pyLower phrase)))) = some m.name
    cases hget : dictGet (buildAliasMap catalog) (pyStrip (pyLower phrase)) with
    | some v =>
      unfold dictGet at hget
      cases hfind : (buildAliasMap catalog).find?
          (fun p => p.1 == pyStrip (pyLower phrase)) with
      | none =>
        rw [hfind] at hget
        exact absurd hget (by simp)
      | some p₀ =>
        rw [hfind] at hget
        have hv : p₀.2 = v := by simpa using hget
        have hp₀ : p₀ ∈ buildAliasMap catalog := List.mem_of_find?_eq_some hfind
        have hpk := List.find?_some hfind
        have hk : p₀.1 = pyStrip (pyLower phrase) := by simpa using hpk
        have : p₀.2 = m.name := by
          refine hall p₀ hp₀ ?_
          rw [hk]
          exact pyContains_refl _
        rw [← hv, this]
    | none =>
      cases hfind2 : (buildAliasMap catalog).find?
          (fun p => pyContains p.1 (pyStrip (pyLower phrase))) with
      | none =>
        exfalso
        obtain ⟨p, hp, hpk⟩ :=
          buildAliasMap_key_exists catalog m (pyLower a) hm (Or.inr ⟨a, ha, rfl⟩)
        have := List.find?_eq_none.mp hfind2 p hp
        rw [hpk] at this
        exact this hsub
      | some p₀ =>
        have hp₀ : p₀ ∈ buildAliasMap catalog := List.mem_of_find?_eq_some hfind2
        have hpred := List.find?_some hfind2
        have : p₀.2 = m.name := hall p₀ hp₀ (by simpa using hpred)
        show some p₀.2 = some m.name
        rw [this]

/-- C7 witness: the alias "CPB" of the Cardiopulmonary Bypass Machine,
inside the phrase "start the cpb now", resolves to that machine. -/
theorem claim_C7_amended_witness :
    fuzzyMatchMachine "start the cpb now" (getMachineNames heartCatalog)
      (buildAliasMap heartCatalog) = some "Cardiopulmonary Bypass Machine" :=
  (claim_C7_amended heartCatalog
    ⟨"Cardiopulmonary Bypass Machine",
      ["bypass machine", "heart-lung machine", "CPB", "bypass pump", "pump"]⟩
    "CPB" (by decide) (by decide) (by decide) (by decide)).2.2
    "start the cpb now" (by decide) (by decide)

/-- C3 (code bug): parse_llm_output does not return an LLMOutput for
every input string.  An input that parses as a JSON value other than an
object (or null) — such as "3" — reaches `parsed.get`, which raises
AttributeError to the caller, contradicting the documented
"returns LLMOutput always" contract.  The fallback branch itself works:
text on which every parse attempt fails yields the safe empty intent with
the explanatory note and both lists empty. -/
theorem claim_C3_code_bug :
    (∀ catalog : Catalog, parseLLMOutput "3" catalog = .error "AttributeError: get") ∧
    (∀ catalog : Catalog, parseLLMOutput "I cannot comply." catalog = .ok parseFailedFallback) ∧
    parseFailedFallback.turnOn = [] ∧ parseFailedFallback.turnOff = [] ∧
    parseFailedFallback.reasoning = "Parse failed — no state change applied." :=
  ⟨fun _ => rfl, fun _ => rfl, rfl, rfl, rfl⟩

/-- C8 (code bug): no single-quote repair is applied — _fix_single_quotes
exists in the source but is never called by _try_parse — so JSON that is
valid except for single-quoted strings fails every cascade step and
parse_llm_output returns the empty fallback instead of the encoded
intent. -/
theorem claim_C8_code_bug :
    tryParse "\x7b\x27reasoning\x27: \x27ok\x27, \x27machine_states\x27: \x7b\x270\x27: [], \x271\x27: [\x27vent\x27]\x7d\x7d" = none ∧
    (∀ catalog : Catalog,
      parseLLMOutput "\x7b\x27reasoning\x27: \x27ok\x27, \x27machine_states\x27: \x7b\x270\x27: [], \x271\x27: [\x27vent\x27]\x7d\x7d" catalog
        = .ok parseFailedFallback) ∧
    parseFailedFallback.turnOn = [] :=
  ⟨rfl, fun _ => rfl, rfl⟩

/-- C5 (code bug): the poll-timeout emission path does not reset the
pre-roll buffer.  A speech frame (entering SPEAKING with a non-empty
pre-roll), a silent frame (entering TRAILING), and 36 consecutive poll
timeouts trigger exactly one _emit_utterance call via the timeout path,
after which the pre-roll still holds the old samples; the same run with
36 silent frames instead (the in-band silence path) does reset the
pre-roll to empty. -/
theorem claim_C5_code_bug :
    ((vadRun vadInit ([some ⟨[1, 2], mkRat 5 100⟩, some ⟨[0, 0], mkRat 1 1000⟩]
        ++ List.replicate 36 (none : Option AudioBlock))).2.map Emission.audio
      = [[1, 2, 1, 2, 0, 0]]) ∧
    (vadRun vadInit ([some ⟨[1, 2], mkRat 5 100⟩, some ⟨[0, 0], mkRat 1 1000⟩]
        ++ List.replicate 36 (none : Option AudioBlock))).1.preRoll = [1, 2] ∧
    (vadRun vadInit ([some ⟨[1, 2], mkRat 5 100⟩, some ⟨[0, 0], mkRat 1 1000⟩]
        ++ List.replicate 36
          (some (⟨[0, 0], mkRat 1 1000⟩ : AudioBlock)))).1.preRoll = [] := by
  refine ⟨by decide, by decide, by decide⟩
